import Mathlib

/-
Verification of the bidirectional path tracing (BDPT) and Metropolis light
transport (MLT) core of this renderer, as implemented in
`src/pbrt/integrators/bdpt.cpp` and `src/integrators/mlt.cpp`.

The embedding is shallow: C++ floating-point values are modelled as rationals,
spectra as three-channel rational triples, and the externally supplied
operations (scene intersection, BSDF evaluation, camera/light sampling, the
pseudo-random generator, and the irrational helpers ErfInv/sqrt) as oracle
function parameters.  Stateful C++ code (in-place mutation of vertex arrays,
the primary-sample-space sampler) is embedded as explicit state passing.
-/

set_option autoImplicit false

namespace PbrtBdpt

/-- Three-channel spectrum standing in for the renderer's `Spectrum` type.
The spectral representation itself is external to the verified core; only
componentwise arithmetic and the black test are needed here. -/
structure Spectrum where
  c0 : ℚ
  c1 : ℚ
  c2 : ℚ
  deriving DecidableEq, Repr

/-- The all-zero (black) spectrum, `Spectrum(0.f)`. -/
def Spectrum.zero : Spectrum := ⟨0, 0, 0⟩

instance : Inhabited Spectrum := ⟨Spectrum.zero⟩

/-- Componentwise spectrum addition, `operator+`. -/
def Spectrum.add (a b : Spectrum) : Spectrum := ⟨a.c0 + b.c0, a.c1 + b.c1, a.c2 + b.c2⟩

/-- Componentwise spectrum multiplication, `operator*`. -/
def Spectrum.mul (a b : Spectrum) : Spectrum := ⟨a.c0 * b.c0, a.c1 * b.c1, a.c2 * b.c2⟩

/-- Spectrum scaled by a scalar, `Spectrum * Float`. -/
def Spectrum.scale (a : Spectrum) (q : ℚ) : Spectrum := ⟨a.c0 * q, a.c1 * q, a.c2 * q⟩

/-- Spectrum divided by a scalar, `Spectrum / Float`. -/
def Spectrum.divQ (a : Spectrum) (q : ℚ) : Spectrum := ⟨a.c0 / q, a.c1 / q, a.c2 / q⟩

/-- The black test: `!L` is true and `if (L)` is false exactly when every
channel is zero. -/
def Spectrum.isBlack (a : Spectrum) : Bool := a.c0 == 0 && a.c1 == 0 && a.c2 == 0

/-- A raster-space position, mirroring `Point2f`. -/
structure Point2f where
  x : ℚ
  y : ℚ
  deriving DecidableEq, Repr

instance : Inhabited Point2f := ⟨⟨0, 0⟩⟩

/-- The vertex variant tag (`VertexType`). -/
inductive VertexType where
  | camera
  | light
  | surface
  | medium
  deriving DecidableEq, Repr

/-- One path vertex, following the data model of the spec (tagged record with
throughput `beta`, forward and reverse area densities, and a delta flag).
The `Vertex` struct and its query methods live in `bdpt.h`, which is not part
of the extracted sources; the results of the externally computed predicates
(`IsConnectible`, `IsLight`, `IsOnSurface`, `IsDeltaLight` of the stored
light) are therefore carried as fields of the record, modelled from the spec's
description of the vertex record. -/
structure Vertex where
  type : VertexType
  beta : Spectrum
  pdfFwd : ℚ
  pdfRev : ℚ
  delta : Bool
  connectible : Bool
  onSurface : Bool
  isLightV : Bool
  isDeltaLightSrc : Bool
  deriving DecidableEq, Repr

/-- A default vertex used for out-of-range array reads in the embedding. -/
def defaultVertex : Vertex :=
  ⟨VertexType.camera, Spectrum.zero, 0, 0, false, false, false, false, false⟩

instance : Inhabited Vertex := ⟨defaultVertex⟩

/-- Read the vertex stored at index `i` of a subpath array. -/
def getV (l : List Vertex) (i : ℕ) : Vertex := l.getD i defaultVertex

/-- Overwrite the whole vertex at index `i` (a `ScopedAssignment<Vertex>`
write). -/
def setVert (l : List Vertex) (i : ℕ) (v : Vertex) : List Vertex := l.set i v

/-- Overwrite only the `delta` flag of the vertex at index `i` (a
`ScopedAssignment<bool>` write through `&v->delta`). -/
def setDelta (l : List Vertex) (i : ℕ) (b : Bool) : List Vertex :=
  l.set i { getV l i with delta := b }

/-- Overwrite only the `pdfRev` field of the vertex at index `i` (a
`ScopedAssignment<Float>` write through `&v->pdfRev`). -/
def setPdfRev (l : List Vertex) (i : ℕ) (r : ℚ) : List Vertex :=
  l.set i { getV l i with pdfRev := r }

theorem getD_set_self {α : Type} (d : α) :
    ∀ (l : List α) (i : ℕ), l.set i (l.getD i d) = l := by
  intro l
  induction l with
  | nil => intro i; rfl
  | cons a l ih =>
    intro i
    cases i with
    | zero => rfl
    | succ j => simpa [List.set, List.getD] using ih j

theorem set_set_self {α : Type} (l : List α) (i : ℕ) (a b : α) :
    (l.set i a).set i b = l.set i b := by
  induction l generalizing i with
  | nil => rfl
  | cons x l ih =>
    cases i with
    | zero => rfl
    | succ j => simp [List.set, ih j]

theorem getD_set_eq {α : Type} (d : α) (l : List α) (i : ℕ) (a : α)
    (h : i < l.length) : (l.set i a).getD i d = a := by
  induction l generalizing i with
  | nil => simp at h
  | cons x l ih =>
    cases i with
    | zero => rfl
    | succ j =>
      simp only [List.length_cons, Nat.succ_lt_succ_iff] at h
      simpa [List.set, List.getD] using ih j h

theorem getD_of_length_le {α : Type} (d : α) (l : List α) (i : ℕ)
    (h : l.length ≤ i) : l.getD i d = d := by
  induction l generalizing i with
  | nil => cases i <;> rfl
  | cons x l ih =>
    cases i with
    | zero => simp at h
    | succ j =>
      simp only [List.length_cons, Nat.succ_le_succ_iff] at h
      simpa [List.getD] using ih j h

theorem set_of_length_le {α : Type} (l : List α) (i : ℕ) (a : α)
    (h : l.length ≤ i) : l.set i a = l := by
  induction l generalizing i with
  | nil => rfl
  | cons x l ih =>
    cases i with
    | zero => simp at h
    | succ j =>
      simp only [List.length_cons, Nat.succ_le_succ_iff] at h
      simpa [List.set] using ih j h

/-- Restoring the saved `pdfRev` after a scoped `pdfRev` overwrite returns the
array to its prior state. -/
theorem setPdfRev_restore (l : List Vertex) (i : ℕ) (r : ℚ) :
    setPdfRev (setPdfRev l i r) i (getV l i).pdfRev = l := by
  by_cases h : i < l.length
  · simp only [setPdfRev, getV, set_set_self, getD_set_eq _ _ _ _ h]
    exact getD_set_self defaultVertex l i
  · push_neg at h
    simp only [setPdfRev, set_of_length_le _ _ _ h]

/-- Restoring the saved `delta` flag after a scoped `delta` overwrite returns
the array to its prior state. -/
theorem setDelta_restore (l : List Vertex) (i : ℕ) (b : Bool) :
    setDelta (setDelta l i b) i (getV l i).delta = l := by
  by_cases h : i < l.length
  · simp only [setDelta, getV, set_set_self, getD_set_eq _ _ _ _ h]
    exact getD_set_self defaultVertex l i
  · push_neg at h
    simp only [setDelta, set_of_length_le _ _ _ h]

/-- Restoring the saved whole vertex after a scoped whole-vertex overwrite
returns the array to its prior state. -/
theorem setVert_restore (l : List Vertex) (i : ℕ) (v : Vertex) :
    setVert (setVert l i v) i (getV l i) = l := by
  by_cases h : i < l.length
  · simp only [setVert, set_set_self]
    exact getD_set_self _ l i
  · push_neg at h
    simp only [setVert, set_of_length_le _ _ _ h]

/-- Oracle collecting the vertex density queries that `MISWeight` delegates to
code outside the extracted sources (`Vertex::Pdf`, `Vertex::PdfLightOrigin`
and `Vertex::PdfLight` are declared in `bdpt.h`).  Each function receives the
vertices the C++ method call reads at the moment of the call. -/
structure PdfOracle where
  vertexPdf : Vertex → Option Vertex → Vertex → ℚ
  pdfLightOrigin : Vertex → Vertex → ℚ
  pdfLight : Vertex → Vertex → ℚ

/-- The `remap0` helper of `MISWeight`: a zero density is treated as 1 so that
a Dirac delta strategy drops out of a product instead of faulting. -/
def remap0 (f : ℚ) : ℚ := if f ≠ 0 then f else 1

/-- The backward walk along the camera subpath in `MISWeight`
(`for (int i = t - 1; i > 0; --i)`), carried out with the temporarily
overwritten vertex array.  The first argument is the loop variable `i`; the
walk stops once `i = 0`. -/
def cameraWalk (cv : List Vertex) : ℕ → ℚ → ℚ → ℚ
  | 0, _, sumRi => sumRi
  | i + 1, ri, sumRi =>
    let v := getV cv (i + 1)
    let ri' := ri * (remap0 v.pdfRev / remap0 v.pdfFwd)
    let sumRi' := if ¬v.delta ∧ ¬(getV cv i).delta then sumRi + ri' else sumRi
    cameraWalk cv i ri' sumRi'

/-- The backward walk along the light subpath in `MISWeight`
(`for (int i = s - 1; i >= 0; --i)`).  The first argument is the number of
iterations still to run, so index `i` of the body corresponds to argument
`i + 1`; the virtual vertex before index 0 is delta iff the sampled light
itself is a delta light. -/
def lightWalk (lv : List Vertex) : ℕ → ℚ → ℚ → ℚ
  | 0, _, sumRi => sumRi
  | n + 1, ri, sumRi =>
    let v := getV lv n
    let ri' := ri * (remap0 v.pdfRev / remap0 v.pdfFwd)
    let deltaLightvertex := if 0 < n then (getV lv (n - 1)).delta
                            else (getV lv 0).isDeltaLightSrc
    let sumRi' := if ¬v.delta ∧ ¬deltaLightvertex then sumRi + ri' else sumRi
    lightWalk lv n ri' sumRi'

/-- Embedding of `MISWeight` (`bdpt.cpp`).  The C++ function mutates the two
vertex arrays through `ScopedAssignment` guards and restores them when the
guards are destroyed (in reverse construction order `a7 … a1`); the embedding
threads both arrays explicitly and returns the weight together with the two
arrays as they stand when the function exits.  Null-pointer dereferences that
are unreachable in the renderer (for example `*ptMinus` with `t = 1` and
`s = 0`) read `defaultVertex` instead. -/
def MISWeight (O : PdfOracle) (lv cv : List Vertex) (sampled : Vertex)
    (s t : ℕ) : ℚ × List Vertex × List Vertex :=
  if s + t = 2 then (1, lv, cv) else
  -- a1: insert the sampled vertex into the light slot (s = 1) or camera slot
  -- (t = 1), saving the displaced vertex
  let bk1L := getV lv (s - 1)
  let bk1C := getV cv (t - 1)
  let lv1 := if s = 1 then setVert lv (s - 1) sampled else lv
  let cv1 := if s ≠ 1 ∧ t = 1 then setVert cv (t - 1) sampled else cv
  -- a2: pt->delta = false
  let bk2 := (getV cv1 (t - 1)).delta
  let cv2 := if 0 < t then setDelta cv1 (t - 1) false else cv1
  -- a3: qs->delta = false
  let bk3 := (getV lv1 (s - 1)).delta
  let lv3 := if 0 < s then setDelta lv1 (s - 1) false else lv1
  -- a4: pt->pdfRev = s > 0 ? qs->Pdf(scene, qsMinus, *pt)
  --                        : pt->PdfLightOrigin(scene, *ptMinus, lightDistrib)
  let bk4 := (getV cv2 (t - 1)).pdfRev
  let v4 := if 0 < s then
      O.vertexPdf (getV lv3 (s - 1))
        (if 1 < s then some (getV lv3 (s - 2)) else none) (getV cv2 (t - 1))
    else
      O.pdfLightOrigin (getV cv2 (t - 1))
        (if 1 < t then getV cv2 (t - 2) else defaultVertex)
  let cv4 := if 0 < t then setPdfRev cv2 (t - 1) v4 else cv2
  -- a5: ptMinus->pdfRev = s > 0 ? pt->Pdf(scene, qs, *ptMinus)
  --                             : pt->PdfLight(scene, *ptMinus)
  let bk5 := (getV cv4 (t - 2)).pdfRev
  let v5 := if 0 < s then
      O.vertexPdf (getV cv4 (t - 1)) (some (getV lv3 (s - 1))) (getV cv4 (t - 2))
    else
      O.pdfLight (getV cv4 (t - 1)) (getV cv4 (t - 2))
  let cv5 := if 1 < t then setPdfRev cv4 (t - 2) v5 else cv4
  -- a6: qs->pdfRev = pt->Pdf(scene, ptMinus, *qs)
  let bk6 := (getV lv3 (s - 1)).pdfRev
  let v6 := O.vertexPdf (getV cv5 (t - 1))
      (if 1 < t then some (getV cv5 (t - 2)) else none) (getV lv3 (s - 1))
  let lv6 := if 0 < s then setPdfRev lv3 (s - 1) v6 else lv3
  -- a7: qsMinus->pdfRev = qs->Pdf(scene, pt, *qsMinus)
  let bk7 := (getV lv6 (s - 2)).pdfRev
  let v7 := O.vertexPdf (getV lv6 (s - 1)) (some (getV cv5 (t - 1)))
      (getV lv6 (s - 2))
  let lv7 := if 1 < s then setPdfRev lv6 (s - 2) v7 else lv6
  -- backward walks over the temporarily overwritten arrays
  let sumCamera := cameraWalk cv5 (t - 1) 1 0
  let sumRi := lightWalk lv7 s 1 sumCamera
  -- ScopedAssignment destructors run in reverse order a7, a6, a5, a4, a3,
  -- a2, a1 and write the saved values back
  let lvR7 := if 1 < s then setPdfRev lv7 (s - 2) bk7 else lv7
  let lvR6 := if 0 < s then setPdfRev lvR7 (s - 1) bk6 else lvR7
  let cvR5 := if 1 < t then setPdfRev cv5 (t - 2) bk5 else cv5
  let cvR4 := if 0 < t then setPdfRev cvR5 (t - 1) bk4 else cvR5
  let lvR3 := if 0 < s then setDelta lvR6 (s - 1) bk3 else lvR6
  let cvR2 := if 0 < t then setDelta cvR4 (t - 1) bk2 else cvR4
  let lvR1 := if s = 1 then setVert lvR3 (s - 1) bk1L else lvR3
  let cvR1 := if s ≠ 1 ∧ t = 1 then setVert cvR2 (t - 1) bk1C else cvR2
  (1 / (1 + sumRi), lvR1, cvR1)

/-- A scoped `pdfRev` overwrite guarded by a condition is undone by the
correspondingly guarded restore of the saved value. -/
theorem guardPdfRevRestore (c : Prop) [Decidable c] (l : List Vertex) (i : ℕ)
    (r : ℚ) :
    (if c then setPdfRev (if c then setPdfRev l i r else l) i ((getV l i).pdfRev)
     else (if c then setPdfRev l i r else l)) = l := by
  by_cases h : c
  · simp [h, setPdfRev_restore]
  · simp [h]

/-- A scoped `delta` overwrite guarded by a condition is undone by the
correspondingly guarded restore of the saved flag. -/
theorem guardDeltaRestore (c : Prop) [Decidable c] (l : List Vertex) (i : ℕ)
    (b : Bool) :
    (if c then setDelta (if c then setDelta l i b else l) i ((getV l i).delta)
     else (if c then setDelta l i b else l)) = l := by
  by_cases h : c
  · simp [h, setDelta_restore]
  · simp [h]

/-- A scoped whole-vertex overwrite guarded by a condition is undone by the
correspondingly guarded restore of the saved vertex. -/
theorem guardVertRestore (c : Prop) [Decidable c] (l : List Vertex) (i : ℕ)
    (v : Vertex) :
    (if c then setVert (if c then setVert l i v else l) i (getV l i)
     else (if c then setVert l i v else l)) = l := by
  by_cases h : c
  · simp [h, setVert_restore]
  · simp [h]

/-- Claim C1: for every scene oracle, light subpath, camera subpath, sampled
vertex and strategy `(s, t)`, `MISWeight` returns with both subpath arrays
exactly equal to their state before the call — the temporary insertion of the
sampled vertex, the forced delta flags and the overwritten reverse densities
are all unwound on every exit path. -/
theorem misWeight_restores_subpaths (O : PdfOracle) (lv cv : List Vertex)
    (sampled : Vertex) (s t : ℕ) :
    (MISWeight O lv cv sampled s t).2 = (lv, cv) := by
  unfold MISWeight
  split
  · rfl
  · simp only [guardPdfRevRestore, guardDeltaRestore, guardVertRestore]

/-- A pdf oracle whose queries all return zero, used to instantiate witness
statements on concrete inputs. -/
def trivPdfOracle : PdfOracle :=
  ⟨fun _ _ _ => 0, fun _ _ => 0, fun _ _ => 0⟩

/-- Claim C8: `MISWeight` returns exactly 1 whenever `s + t = 2`; in
particular the direct strategy `s = 0, t = 2` always has MIS weight exactly 1. -/
theorem misWeight_one_of_length_two (O : PdfOracle) (lv cv : List Vertex)
    (sampled : Vertex) (s t : ℕ) (h : s + t = 2) :
    (MISWeight O lv cv sampled s t).1 = 1 := by
  unfold MISWeight
  rw [if_pos h]

/-- Witness for claim C8 at the concrete direct strategy `s = 0, t = 2`. -/
theorem misWeight_one_of_length_two_witness :
    0 + 2 = 2 ∧
      (MISWeight trivPdfOracle [] [defaultVertex, defaultVertex] defaultVertex
        0 2).1 = 1 :=
  ⟨by decide,
    misWeight_one_of_length_two trivPdfOracle [] [defaultVertex, defaultVertex]
      defaultVertex 0 2 (by decide)⟩

/-- Embedding of `BufferIndex` (`bdpt.cpp`): the triangular layout
`s + above * (5 + above) / 2` with `above = s + t - 2`, used to index the
per-strategy debug visualization films.  On the strategy domain enumerated by
the renderer `s + t ≥ 2` holds, so natural subtraction and division agree
with the C++ `int` arithmetic. -/
def BufferIndex (s t : ℕ) : ℕ :=
  s + (s + t - 2) * (5 + (s + t - 2)) / 2

/-- The number of debug visualization buffers allocated by
`BDPTIntegrator::Render`: `(1 + maxDepth) * (6 + maxDepth) / 2`. -/
def bufferCount (maxDepth : ℕ) : ℕ := (1 + maxDepth) * (6 + maxDepth) / 2

/-- A strategy pair `(s, t)` enumerated by the debug-visualization setup and
the per-pixel strategy loops: depth `s + t - 2` between 0 and `maxDepth`,
`t ≥ 1`, and the excluded pure-connection pair `(1, 1)` skipped. -/
def ValidStrategy (maxDepth s t : ℕ) : Prop :=
  1 ≤ t ∧ 2 ≤ s + t ∧ s + t ≤ maxDepth + 2 ∧ ¬(s = 1 ∧ t = 1)

instance (maxDepth s t : ℕ) : Decidable (ValidStrategy maxDepth s t) := by
  unfold ValidStrategy
  infer_instance

/-- The triangular-number core of `BufferIndex`. -/
def triSlot (a : ℕ) : ℕ := a * (5 + a) / 2

theorem two_dvd_tri (a : ℕ) : 2 ∣ a * (5 + a) := by
  rcases Nat.even_or_odd a with h | h
  · exact Dvd.dvd.mul_right h.two_dvd _
  · have : Even (5 + a) := Odd.add_odd (by decide) h
    exact Dvd.dvd.mul_left this.two_dvd _

theorem triSlot_mul_two (a : ℕ) : triSlot a * 2 = a * (5 + a) :=
  Nat.div_mul_cancel (two_dvd_tri a)

theorem triSlot_succ (a : ℕ) : triSlot (a + 1) = triSlot a + (a + 3) := by
  have h1 := triSlot_mul_two a
  have h2 := triSlot_mul_two (a + 1)
  have key : (a + 1) * (5 + (a + 1)) = a * (5 + a) + (a + 3) * 2 := by ring
  omega

theorem triSlot_gap : ∀ (m a : ℕ), a ≤ m → triSlot a + a + 2 < triSlot (m + 1) := by
  intro m
  induction m with
  | zero =>
    intro a ha
    interval_cases a
    decide
  | succ m ih =>
    intro a ha
    rcases Nat.lt_or_ge a (m + 1) with h | h
    · have := ih a (Nat.lt_succ_iff.mp h)
      have step := triSlot_succ (m + 1)
      omega
    · have : a = m + 1 := le_antisymm ha h
      subst this
      have step := triSlot_succ (m + 1)
      omega

theorem bufferIndex_as_triSlot (s t : ℕ) :
    BufferIndex s t = s + triSlot (s + t - 2) := rfl

theorem bufferCount_as_triSlot (maxDepth : ℕ) :
    bufferCount maxDepth = triSlot (maxDepth + 1) := by
  unfold bufferCount triSlot
  have : (1 + maxDepth) * (6 + maxDepth) = (maxDepth + 1) * (5 + (maxDepth + 1)) := by
    ring
  rw [this]

/-- Claim C10: for every `maxDepth` and every strategy pair enumerated by the
debug-visualization setup and the per-pixel strategy loops, `BufferIndex s t`
lies strictly below `bufferCount maxDepth`, and distinct valid pairs map to
distinct buffer indices — every `weightFilms` access is in bounds and no two
strategies collide in one buffer. -/
theorem bufferIndex_in_bounds_and_injective (maxDepth : ℕ) :
    (∀ s t, ValidStrategy maxDepth s t →
      BufferIndex s t < bufferCount maxDepth) ∧
    (∀ s t s' t', ValidStrategy maxDepth s t → ValidStrategy maxDepth s' t' →
      (s, t) ≠ (s', t') → BufferIndex s t ≠ BufferIndex s' t') := by
  constructor
  · intro s t hv
    obtain ⟨ht, hlo, hhi, -⟩ := hv
    rw [bufferIndex_as_triSlot, bufferCount_as_triSlot]
    have hgap := triSlot_gap maxDepth (s + t - 2) (by omega)
    omega
  · intro s t s' t' hv hv' hne
    obtain ⟨ht, hlo, hhi, -⟩ := hv
    obtain ⟨ht', hlo', hhi', -⟩ := hv'
    rw [bufferIndex_as_triSlot, bufferIndex_as_triSlot]
    set a := s + t - 2 with ha
    set a' := s' + t' - 2 with ha'
    rcases Nat.lt_trichotomy a a' with h | h | h
    · have hgap := triSlot_gap (a' - 1) a (by omega)
      have : a' - 1 + 1 = a' := by omega
      rw [this] at hgap
      omega
    · have hTT : triSlot a = triSlot a' := by rw [h]
      have hss : s ≠ s' := by
        intro hs
        apply hne
        have : t = t' := by omega
        rw [hs, this]
      omega
    · have hgap := triSlot_gap (a - 1) a' (by omega)
      have : a - 1 + 1 = a := by omega
      rw [this] at hgap
      omega

/-- Witness for claim C10 at `maxDepth = 1`: the strategies `(0, 2)` and
`(0, 3)` are in bounds and occupy distinct buffers. -/
theorem bufferIndex_in_bounds_and_injective_witness :
    BufferIndex 0 2 < bufferCount 1 ∧ BufferIndex 0 2 ≠ BufferIndex 0 3 :=
  ⟨(bufferIndex_in_bounds_and_injective 1).1 0 2 (by decide),
    (bufferIndex_in_bounds_and_injective 1).2 0 2 0 3 (by decide) (by decide)
      (by decide)⟩

/-- The progress-reporting test in the MLT bootstrap loop, exactly as written
in `mlt.cpp`: `(i + 1 % 256) == 0`.  Because `%` binds tighter than `+`, this
is `i + (1 % 256) == 0`, i.e. `i + 1 == 0`. -/
def bootstrapProgressCond (i : ℕ) : Bool := i + 1 % 256 == 0

/-- Result of the bootstrap candidate loop: the recorded luminance weights and
the number of `progress.Update()` calls made from the loop. -/
structure BootstrapAcc where
  weights : List ℚ
  progressUpdates : ℕ
  deriving DecidableEq, Repr

/-- Embedding of the MLT bootstrap loop over candidate indices
`i = 0 … nBootstrap - 1`: for each `i` and each `depth ≤ maxDepth` it records
the luminance of the bootstrap path with deterministic seed
`rngIndex = i * (maxDepth + 1) + depth` (supplied by the oracle `Lw`, since
path construction is external to this loop), then calls `progress.Update()`
when `(i + 1 % 256) == 0`. -/
def bootstrapLoop (maxDepth : ℕ) (Lw : ℕ → ℚ) : ℕ → BootstrapAcc
  | 0 => ⟨[], 0⟩
  | n + 1 =>
    let acc := bootstrapLoop maxDepth Lw n
    ⟨acc.weights ++
        (List.range (maxDepth + 1)).map (fun depth => Lw (n * (maxDepth + 1) + depth)),
      acc.progressUpdates + (if bootstrapProgressCond n then 1 else 0)⟩

/-- Claim C9: the bootstrap progress test `(i + 1 % 256) == 0` is false for
every candidate index, so the progress update never fires from that loop,
while the computed bootstrap weights are exactly the per-candidate luminances,
unaffected by the condition. -/
theorem bootstrapProgress_never_fires (maxDepth n : ℕ) (Lw : ℕ → ℚ) :
    (∀ i : ℕ, bootstrapProgressCond i = false) ∧
    (bootstrapLoop maxDepth Lw n).progressUpdates = 0 ∧
    (bootstrapLoop maxDepth Lw n).weights =
      (List.range (n * (maxDepth + 1))).map Lw := by
  have hcond : ∀ i : ℕ, bootstrapProgressCond i = false := by
    intro i
    simp [bootstrapProgressCond]
  refine ⟨hcond, ?_⟩
  induction n with
  | zero => simp [bootstrapLoop]
  | succ n ih =>
    refine ⟨by simp [bootstrapLoop, hcond n, ih.1], ?_⟩
    have hsplit : (n + 1) * (maxDepth + 1) = n * (maxDepth + 1) + (maxDepth + 1) := by
      ring
    have hw : (bootstrapLoop maxDepth Lw (n + 1)).weights =
        (bootstrapLoop maxDepth Lw n).weights ++
          (List.range (maxDepth + 1)).map
            (fun depth => Lw (n * (maxDepth + 1) + depth)) := rfl
    rw [hw, ih.2]
    conv_rhs => rw [hsplit, List.range_add]
    rw [List.map_append, List.map_map]
    rfl

/-- One additive image contribution made through `Film::AddSplat`. -/
structure SplatEvent where
  pos : Point2f
  value : Spectrum
  deriving DecidableEq, Repr

/-- Result of one Markov-chain step of `MLTIntegrator::Render`. -/
structure ChainStepResult where
  splats : List SplatEvent
  pNext : Point2f
  LNext : Spectrum
  accepted : Bool
  accept : ℚ
  deriving DecidableEq, Repr

/-- Embedding of one Markov-chain mutation step of `MLTIntegrator::Render`
(the body of the `for j` loop after the proposal has been generated): compute
the acceptance probability from the luminances (`lum` models `Spectrum::y`),
splat the proposed sample when `accept > 0` and the current sample always,
then advance or keep the chain state according to the uniform draw `uAccept`. -/
def mltChainStep (lum : Spectrum → ℚ) (pCurrent : Point2f) (LCurrent : Spectrum)
    (pProposed : Point2f) (LProposed : Spectrum) (uAccept : ℚ) :
    ChainStepResult :=
  let accept := min 1 (lum LProposed / lum LCurrent)
  let splatsProposed :=
    if 0 < accept then
      [SplatEvent.mk pProposed ((LProposed.scale accept).divQ (lum LProposed))]
    else []
  let splats := splatsProposed ++
    [SplatEvent.mk pCurrent ((LCurrent.scale (1 - accept)).divQ (lum LCurrent))]
  if uAccept < accept then ⟨splats, pProposed, LProposed, true, accept⟩
  else ⟨splats, pCurrent, LCurrent, false, accept⟩

/-- Claim C2: in every Markov-chain step the acceptance probability equals
`min(1, lum(LProposed) / lum(LCurrent))`; when it is positive the proposed
sample is splatted at its raster position weighted by `accept` over its own
luminance, and the current sample is always splatted at its raster position
weighted by `1 - accept` over its own luminance. -/
theorem mltChainStep_acceptance_and_splats (lum : Spectrum → ℚ)
    (pCurrent : Point2f) (LCurrent : Spectrum) (pProposed : Point2f)
    (LProposed : Spectrum) (uAccept : ℚ) :
    (mltChainStep lum pCurrent LCurrent pProposed LProposed uAccept).accept =
      min 1 (lum LProposed / lum LCurrent) ∧
    (mltChainStep lum pCurrent LCurrent pProposed LProposed uAccept).splats =
      (if 0 < min 1 (lum LProposed / lum LCurrent) then
        [SplatEvent.mk pProposed
          ((LProposed.scale (min 1 (lum LProposed / lum LCurrent))).divQ
            (lum LProposed))]
      else []) ++
      [SplatEvent.mk pCurrent
        ((LCurrent.scale (1 - min 1 (lum LProposed / lum LCurrent))).divQ
          (lum LCurrent))] := by
  simp only [mltChainStep]
  split <;> exact ⟨rfl, rfl⟩

/-- Oracle for the external computations one `ConnectBDPT` invocation
delegates to collaborators (camera and light sampling, BSDF evaluation,
visibility transmittance, the geometric term and the sampled light origin
density).  The BSDF evaluation functions model `Vertex::f` under importance
and radiance transport; the remaining fields are the values returned by the
corresponding external calls during this invocation. -/
structure ConnectOracle where
  leOf : Vertex → Vertex → Spectrum
  fImportance : Vertex → Vertex → Spectrum
  fRadiance : Vertex → Vertex → Spectrum
  camWi : Spectrum
  camPdf : ℚ
  camRaster : Point2f
  camCos : ℚ
  trCam : Spectrum
  lightSelPdf : ℚ
  liWeight : Spectrum
  liPdf : ℚ
  liCos : ℚ
  trLight : Spectrum
  gTerm : Spectrum
  pdfLightOriginVal : ℚ
  misO : PdfOracle

/-- A trivial connection oracle returning zeros everywhere, used for witness
and counterexample statements on concrete inputs. -/
def trivConnectOracle : ConnectOracle :=
  ⟨fun _ _ => Spectrum.zero, fun _ _ => Spectrum.zero, fun _ _ => Spectrum.zero,
    Spectrum.zero, 0, ⟨0, 0⟩, 0, Spectrum.zero, 0, Spectrum.zero, 0, 0,
    Spectrum.zero, Spectrum.zero, 0, trivPdfOracle⟩

/-- The dynamically sampled camera vertex created by the `t = 1` strategy,
`Vertex::CreateCamera(&camera, vis.P1(), Wi / pdf)`.  `Vertex` construction
lives in `bdpt.h`; modelled from the spec as a camera-endpoint record with
the given throughput and zero densities. -/
def mkCameraVertex (beta : Spectrum) : Vertex :=
  ⟨VertexType.camera, beta, 0, 0, false, true, false, false, false⟩

/-- The dynamically sampled light vertex created by the `s = 1` strategy,
`Vertex::CreateLight(ei, lightWeight / (pdf * lightPdf), 0)` followed by the
`pdfFwd` overwrite.  Modelled from the spec as a light-endpoint record with
the given throughput and forward density. -/
def mkLightVertex (beta : Spectrum) (pdfFwd : ℚ) : Vertex :=
  ⟨VertexType.light, beta, pdfFwd, 0, false, true, false, true, false⟩

/-- Result of one `ConnectBDPT` invocation.  `Lpre` is the contribution the
function computes before MIS weighting (the local variable `L` just before
`L *= misWeight`); `misWeight` is the value left in the caller's
zero-initialized weight variable (untouched, hence 0, on the early
infinite-light return); `misInvoked` records whether `MISWeight` ran;
`raster` is the raster position written through `pRaster` by `Sample_Wi`, if
any; `lvOut`/`cvOut` are the subpath arrays after the call. -/
structure ConnectResult where
  L : Spectrum
  Lpre : Spectrum
  misWeight : ℚ
  misInvoked : Bool
  raster : Option Point2f
  zeroPath : Bool
  lvOut : List Vertex
  cvOut : List Vertex

/-- The tail of `ConnectBDPT` after the contribution `L` has been computed:
count the path, skip `MISWeight` entirely when `L` is black (leaving the
caller's zero-initialized weight untouched), otherwise weight `L` by the MIS
weight computed on the temporarily overwritten subpaths. -/
def finishConnect (O : ConnectOracle) (lv cv : List Vertex) (sampled : Vertex)
    (s t : ℕ) (L : Spectrum) (raster : Option Point2f) : ConnectResult :=
  if L.isBlack then
    ⟨L.scale 0, L, 0, false, raster, true, lv, cv⟩
  else
    let m := MISWeight O.misO lv cv sampled s t
    ⟨L.scale m.1, L, m.1, true, raster, false, m.2.1, m.2.2⟩

/-- Embedding of `ConnectBDPT` (`bdpt.cpp`): the early rejection of
connections whose camera endpoint is itself a light (would double-count the
`s = 0` strategy), the four connection cases computing `L`, and the final MIS
weighting that is skipped entirely whenever `L` is black. -/
def ConnectBDPT (O : ConnectOracle) (lv cv : List Vertex) (s t : ℕ) :
    ConnectResult :=
  if 1 < t ∧ s ≠ 0 ∧ (getV cv (t - 1)).type = VertexType.light then
    ⟨Spectrum.zero, Spectrum.zero, 0, false, none, false, lv, cv⟩
  else
    let case0 : Spectrum × Vertex × Option Point2f :=
      if s = 0 then
        -- interpret the camera subpath as a complete path
        let pt := getV cv (t - 1)
        (if pt.isLightV then (O.leOf pt (getV cv (t - 2))).mul pt.beta
         else Spectrum.zero, defaultVertex, none)
      else if t = 1 then
        -- sample a point on the camera and connect it to the light subpath
        let qs := getV lv (s - 1)
        if qs.connectible then
          if 0 < O.camPdf ∧ ¬O.camWi.isBlack then
            let sampled := mkCameraVertex (O.camWi.divQ O.camPdf)
            let L0 := (qs.beta.mul (O.fImportance qs sampled)).mul sampled.beta
            let L1 := if qs.onSurface then L0.scale O.camCos else L0
            let L2 := if ¬L1.isBlack then L1.mul O.trCam else L1
            (L2, sampled, some O.camRaster)
          else (Spectrum.zero, defaultVertex, some O.camRaster)
        else (Spectrum.zero, defaultVertex, none)
      else if s = 1 then
        -- sample a point on a light and connect it to the camera subpath
        let pt := getV cv (t - 1)
        if pt.connectible then
          if 0 < O.liPdf ∧ ¬O.liWeight.isBlack then
            let sampled := mkLightVertex (O.liWeight.divQ (O.liPdf * O.lightSelPdf))
              O.pdfLightOriginVal
            let L0 := (pt.beta.mul (O.fRadiance pt sampled)).mul sampled.beta
            let L1 := if pt.onSurface then L0.scale O.liCos else L0
            let L2 := if ¬L1.isBlack then L1.mul O.trLight else L1
            (L2, sampled, none)
          else (Spectrum.zero, defaultVertex, none)
        else (Spectrum.zero, defaultVertex, none)
      else
        -- handle all other bidirectional connection cases
        let qs := getV lv (s - 1)
        let pt := getV cv (t - 1)
        if qs.connectible ∧ pt.connectible then
          let L0 := ((qs.beta.mul (O.fImportance qs pt)).mul
            (O.fRadiance pt qs)).mul pt.beta
          (if ¬L0.isBlack then L0.mul O.gTerm else L0, defaultVertex, none)
        else (Spectrum.zero, defaultVertex, none)
    finishConnect O lv cv case0.2.1 s t case0.1 case0.2.2

/-- Scaling any spectrum by the scalar zero yields the black spectrum. -/
theorem scale_by_zero (a : Spectrum) : a.scale 0 = Spectrum.zero := by
  simp [Spectrum.scale, Spectrum.zero]

/-- The `Lpre` field of `finishConnect` is the unweighted contribution. -/
theorem finishConnect_Lpre (O : ConnectOracle) (lv cv : List Vertex)
    (sampled : Vertex) (s t : ℕ) (L : Spectrum) (raster : Option Point2f) :
    (finishConnect O lv cv sampled s t L raster).Lpre = L := by
  unfold finishConnect
  split <;> rfl

/-- When the unweighted contribution is black, `finishConnect` skips the MIS
computation, reports weight zero and returns black. -/
theorem finishConnect_black (O : ConnectOracle) (lv cv : List Vertex)
    (sampled : Vertex) (s t : ℕ) (L : Spectrum) (raster : Option Point2f)
    (h : L.isBlack = true) :
    (finishConnect O lv cv sampled s t L raster).misInvoked = false ∧
    (finishConnect O lv cv sampled s t L raster).misWeight = 0 ∧
    (finishConnect O lv cv sampled s t L raster).L = Spectrum.zero := by
  unfold finishConnect
  rw [if_pos h]
  exact ⟨rfl, rfl, scale_by_zero L⟩

/-- Claim C3: whenever the contribution computed by a `ConnectBDPT` strategy
is zero (degenerate BSDF, occlusion, non-connectible endpoint, or the early
infinite-light rejection), `MISWeight` is never invoked, the reported MIS
weight is 0, and the returned radiance is black. -/
theorem connect_zero_skips_mis (O : ConnectOracle) (lv cv : List Vertex)
    (s t : ℕ)
    (h : (ConnectBDPT O lv cv s t).Lpre.isBlack = true) :
    (ConnectBDPT O lv cv s t).misInvoked = false ∧
    (ConnectBDPT O lv cv s t).misWeight = 0 ∧
    (ConnectBDPT O lv cv s t).L = Spectrum.zero := by
  unfold ConnectBDPT at h ⊢
  by_cases hearly : 1 < t ∧ s ≠ 0 ∧ (getV cv (t - 1)).type = VertexType.light
  · rw [if_pos hearly]
    exact ⟨rfl, rfl, rfl⟩
  · rw [if_neg hearly] at h ⊢
    rw [finishConnect_Lpre] at h
    exact finishConnect_black O lv cv _ s t _ _ h

/-- Witness for claim C3: with the all-zero oracle, the pure-camera strategy
`s = 0, t = 2` on a non-emissive camera endpoint computes a black
contribution and skips MIS weighting. -/
theorem connect_zero_skips_mis_witness :
    (ConnectBDPT trivConnectOracle [] [defaultVertex, defaultVertex]
      0 2).Lpre.isBlack = true ∧
    ((ConnectBDPT trivConnectOracle [] [defaultVertex, defaultVertex]
        0 2).misInvoked = false ∧
      (ConnectBDPT trivConnectOracle [] [defaultVertex, defaultVertex]
        0 2).misWeight = 0 ∧
      (ConnectBDPT trivConnectOracle [] [defaultVertex, defaultVertex]
        0 2).L = Spectrum.zero) :=
  ⟨by decide,
    connect_zero_skips_mis trivConnectOracle [] [defaultVertex, defaultVertex]
      0 2 (by decide)⟩

/-- Accumulator of the per-pixel-sample strategy loops of
`BDPTIntegrator::Render`: the `(s, t)` pairs for which `ConnectBDPT` was
invoked, the `film->AddSplat` events issued for `t = 1` strategies, and the
per-sample radiance `L` accumulated from all other strategies. -/
structure StrategyAcc where
  invocations : List (ℕ × ℕ)
  splats : List SplatEvent
  L : Spectrum
  deriving DecidableEq, Repr

/-- The `continue` condition of the strategy loops:
`(s == 1 && t == 1) || depth < 0 || depth > maxDepth` with
`int depth = t + s - 2`, rendered over naturals (`depth < 0` iff
`s + t < 2`). -/
def stratSkip (maxDepth s t : ℕ) : Bool :=
  (s == 1 && t == 1) || s + t < 2 || maxDepth + 2 < s + t

/-- The body of the strategy loops for one `(s, t)` pair: skip excluded
pairs, otherwise run `ConnectBDPT` (with `pFilmNew` initialized to the pixel
sample position and overwritten if `Sample_Wi` resamples it), splatting the
result for `t = 1` and accumulating into `L` otherwise. -/
def stratBody (CO : ℕ → ℕ → ConnectOracle) (lv cv : List Vertex)
    (pFilm : Point2f) (maxDepth : ℕ) (acc : StrategyAcc) (p : ℕ × ℕ) :
    StrategyAcc :=
  if stratSkip maxDepth p.1 p.2 then acc
  else
    let r := ConnectBDPT (CO p.1 p.2) lv cv p.1 p.2
    let pFilmNew := r.raster.getD pFilm
    if p.2 ≠ 1 then ⟨acc.invocations ++ [p], acc.splats, acc.L.add r.L⟩
    else ⟨acc.invocations ++ [p], acc.splats ++ [⟨pFilmNew, r.L⟩], acc.L⟩

/-- The iteration order of the nested strategy loops: outer
`for (t = 1; t <= nCamera; ++t)`, inner `for (s = 0; s <= nLight; ++s)`. -/
def strategyPairs (nCamera nLight : ℕ) : List (ℕ × ℕ) :=
  (List.range' 1 nCamera).flatMap
    (fun t => (List.range (nLight + 1)).map (fun s => (s, t)))

/-- Embedding of the per-pixel-sample strategy evaluation of
`BDPTIntegrator::Render` for a sample with `nCamera` camera vertices and
`nLight` light vertices. -/
def strategyLoop (CO : ℕ → ℕ → ConnectOracle) (lv cv : List Vertex)
    (pFilm : Point2f) (nCamera nLight maxDepth : ℕ) : StrategyAcc :=
  (strategyPairs nCamera nLight).foldl (stratBody CO lv cv pFilm maxDepth)
    ⟨[], [], Spectrum.zero⟩

/-- The splat event issued by a `t = 1` strategy. -/
def splatOfPair (CO : ℕ → ℕ → ConnectOracle) (lv cv : List Vertex)
    (pFilm : Point2f) (p : ℕ × ℕ) : SplatEvent :=
  ⟨(ConnectBDPT (CO p.1 p.2) lv cv p.1 p.2).raster.getD pFilm,
    (ConnectBDPT (CO p.1 p.2) lv cv p.1 p.2).L⟩

theorem stratFold_spec (CO : ℕ → ℕ → ConnectOracle) (lv cv : List Vertex)
    (pFilm : Point2f) (maxDepth : ℕ) :
    ∀ (l : List (ℕ × ℕ)) (acc : StrategyAcc),
      l.foldl (stratBody CO lv cv pFilm maxDepth) acc =
        ⟨acc.invocations ++ l.filter (fun p => ¬stratSkip maxDepth p.1 p.2),
          acc.splats ++
            (l.filter (fun p => ¬stratSkip maxDepth p.1 p.2 ∧ p.2 = 1)).map
              (splatOfPair CO lv cv pFilm),
          ((l.filter (fun p => ¬stratSkip maxDepth p.1 p.2 ∧ p.2 ≠ 1)).map
              (fun p => (ConnectBDPT (CO p.1 p.2) lv cv p.1 p.2).L)).foldl
            Spectrum.add acc.L⟩ := by
  intro l
  induction l with
  | nil => intro acc; simp
  | cons p l ih =>
    intro acc
    rcases p with ⟨s, t⟩
    rw [List.foldl_cons, ih]
    by_cases hskip : stratSkip maxDepth s t
    · simp [stratBody, hskip, List.filter_cons]
    · by_cases ht : t = 1
      · subst ht
        simp [stratBody, hskip, List.filter_cons, splatOfPair]
      · simp [stratBody, hskip, ht, List.filter_cons]

theorem stratSkip_false_iff (maxDepth s t : ℕ) :
    stratSkip maxDepth s t = false ↔
      (2 ≤ s + t ∧ s + t ≤ maxDepth + 2 ∧ ¬(s = 1 ∧ t = 1)) := by
  simp [stratSkip]
  omega

theorem mem_strategyPairs (nCamera nLight s t : ℕ) :
    ((s, t) ∈ strategyPairs nCamera nLight) ↔
      (1 ≤ t ∧ t ≤ nCamera ∧ s ≤ nLight) := by
  simp only [strategyPairs, List.mem_flatMap, List.mem_map, List.mem_range',
    List.mem_range, Prod.mk.injEq]
  constructor
  · rintro ⟨a, ⟨i, hi, rfl⟩, s', hs', rfl, rfl⟩
    omega
  · rintro ⟨ht1, ht2, hs⟩
    exact ⟨t, ⟨t - 1, by omega, by omega⟩, s, by omega, rfl, rfl⟩

theorem strategyPairs_nodup (nCamera nLight : ℕ) :
    (strategyPairs nCamera nLight).Nodup := by
  unfold strategyPairs
  rw [List.nodup_flatMap]
  constructor
  · intro t _
    refine (List.nodup_range _).map ?_
    intro a b hab
    exact (Prod.mk.injEq _ _ _ _).mp hab |>.1
  · have h : (List.range' 1 nCamera).Pairwise (· ≠ ·) := List.nodup_range' 1 nCamera
    refine h.imp ?_
    intro a b hab
    intro x hxa hxb
    simp only [Function.comp, List.mem_map] at hxa hxb
    obtain ⟨sa, -, rfl⟩ := hxa
    obtain ⟨sb, -, hEq⟩ := hxb
    exact hab ((Prod.mk.injEq _ _ _ _).mp hEq).2.symm

/-- Amended claim C5: for every pixel sample with `nCamera` camera vertices
and `nLight` light vertices, `ConnectBDPT` is invoked exactly once for every
pair `(s, t)` with `1 ≤ t ≤ nCamera`, `0 ≤ s ≤ nLight`,
`0 ≤ s + t - 2 ≤ maxDepth` and `(s, t) ≠ (1, 1)`; the `t = 1` strategy
results are splatted at their resampled raster position, and all other
strategies are summed (in loop order) into the single per-sample radiance. -/
theorem strategyLoop_enumeration (CO : ℕ → ℕ → ConnectOracle)
    (lv cv : List Vertex) (pFilm : Point2f) (nCamera nLight maxDepth : ℕ) :
    (strategyLoop CO lv cv pFilm nCamera nLight maxDepth).invocations.Nodup ∧
    (∀ s t, ((s, t) ∈
        (strategyLoop CO lv cv pFilm nCamera nLight maxDepth).invocations) ↔
      (1 ≤ t ∧ t ≤ nCamera ∧ s ≤ nLight ∧ 2 ≤ s + t ∧ s + t ≤ maxDepth + 2 ∧
        ¬(s = 1 ∧ t = 1))) ∧
    (strategyLoop CO lv cv pFilm nCamera nLight maxDepth).splats =
      ((strategyPairs nCamera nLight).filter
          (fun p => ¬stratSkip maxDepth p.1 p.2 ∧ p.2 = 1)).map
        (splatOfPair CO lv cv pFilm) ∧
    (strategyLoop CO lv cv pFilm nCamera nLight maxDepth).L =
      (((strategyPairs nCamera nLight).filter
            (fun p => ¬stratSkip maxDepth p.1 p.2 ∧ p.2 ≠ 1)).map
          (fun p => (ConnectBDPT (CO p.1 p.2) lv cv p.1 p.2).L)).foldl
        Spectrum.add Spectrum.zero := by
  unfold strategyLoop
  rw [stratFold_spec]
  refine ⟨?_, ?_, by simp, by simp⟩
  · simpa using (strategyPairs_nodup nCamera nLight).filter
      (fun p => decide ¬stratSkip maxDepth p.1 p.2)
  · intro s t
    simp only [List.nil_append, List.mem_filter, mem_strategyPairs,
      decide_eq_true_eq]
    have hskip := stratSkip_false_iff maxDepth s t
    constructor
    · rintro ⟨⟨h1, h2, h3⟩, h4⟩
      have := hskip.mp (by simpa using h4)
      exact ⟨h1, h2, h3, this.1, this.2.1, this.2.2⟩
    · rintro ⟨h1, h2, h3, h4, h5, h6⟩
      refine ⟨⟨h1, h2, h3⟩, ?_⟩
      have := hskip.mpr ⟨h4, h5, h6⟩
      simpa using this

/-- Counterexample to claim C5 as stated: with one camera vertex, one light
vertex and `maxDepth = 0`, the pair `(s, t) = (1, 1)` satisfies all the
claimed conditions (`1 ≤ t ≤ nCamera`, `0 ≤ s ≤ nLight`,
`0 ≤ s + t - 2 ≤ maxDepth`) yet `ConnectBDPT` is never invoked for it: the
loop explicitly skips `(1, 1)`. -/
theorem strategyLoop_skips_one_one :
    ((1 : ℕ) ≤ 1 ∧ (1 : ℕ) ≤ 1 ∧ (1 : ℕ) ≤ 1 ∧ 2 ≤ (1 : ℕ) + 1 ∧
      (1 : ℕ) + 1 ≤ 0 + 2) ∧
    (1, 1) ∉ (strategyLoop (fun _ _ => trivConnectOracle) [defaultVertex]
      [defaultVertex] ⟨0, 0⟩ 1 1 0).invocations := by
  decide

/-- One primary-sample-space coordinate.  Modelled from the spec: the
`PrimarySample` record lives in `mlt.h`, which is not among the extracted
sources; per the spec it holds the coordinate value, a backup value and
last-modification bookkeeping, all zero-initialized, and its `Backup` and
`Restore` methods save and reinstate the value together with its
last-modification iteration so that a rejected proposal leaves no trace. -/
structure PrimarySample where
  value : ℚ
  lastModificationIteration : ℤ
  valueBackup : ℚ
  modifyBackup : ℤ
  deriving DecidableEq, Repr

/-- The zero-initialized primary sample created by `X.resize`. -/
def freshPrimarySample : PrimarySample := ⟨0, 0, 0, 0⟩

instance : Inhabited PrimarySample := ⟨freshPrimarySample⟩

/-- Save the current value and modification iteration. -/
def PrimarySample.Backup (ps : PrimarySample) : PrimarySample :=
  { ps with valueBackup := ps.value, modifyBackup := ps.lastModificationIteration }

/-- Reinstate the saved value and modification iteration. -/
def PrimarySample.Restore (ps : PrimarySample) : PrimarySample :=
  { ps with
    value := ps.valueBackup
    lastModificationIteration := ps.modifyBackup }

/-- State of one `MLTSampler`.  The pseudo-random generator is deterministic
from the construction seed (`rngSequenceIndex`), so it is embedded as the
seed plus a counter of draws made so far; the draw values themselves come
from the oracle below. -/
structure MLTSampler where
  X : List PrimarySample
  currentIteration : ℤ
  largeStep : Bool
  lastLargeStepIteration : ℤ
  seed : ℕ
  rngCounter : ℕ
  sigma : ℚ
  largeStepProbability : ℚ
  streamIndex : ℕ
  sampleIndex : ℕ
  streamCount : ℕ
  deriving DecidableEq, Repr

/-- Oracle for the numeric primitives the sampler consumes: `uniform seed k`
is the `k`-th value of the generator seeded with `seed`
(`rng.UniformFloat()`), `normalOf u` models `Sqrt2 * ErfInv(2 u - 1)`, and
`sqrtOf n` models `std::sqrt` of the small-step count — all external to the
extracted sources. -/
structure MLTOracle where
  uniform : ℕ → ℕ → ℚ
  normalOf : ℚ → ℚ
  sqrtOf : ℤ → ℚ

/-- An oracle returning zero for every draw, for witness statements. -/
def trivMLTOracle : MLTOracle := ⟨fun _ _ => 0, fun _ => 0, fun _ => 0⟩

/-- A freshly constructed `MLTSampler(mutationsPerPixel, rngSequenceIndex,
sigma, largeStepProbability, streamCount)`.  Modelled from the spec for the
constructor in `mlt.h`: all iteration bookkeeping starts at zero and the
coordinate vector starts empty. -/
def mkMLTSampler (seed : ℕ) (sigma largeStepProbability : ℚ)
    (streamCount : ℕ) : MLTSampler :=
  ⟨[], 0, false, 0, seed, 0, sigma, largeStepProbability, 0, 0, streamCount⟩

/-- Draw the next uniform value from the sampler's generator. -/
def drawU (O : MLTOracle) (st : MLTSampler) : ℚ × MLTSampler :=
  (O.uniform st.seed st.rngCounter, { st with rngCounter := st.rngCounter + 1 })

/-- `X.resize(index + 1)` when `index >= X.size()`: pad with
zero-initialized samples. -/
def padTo (l : List PrimarySample) (n : ℕ) : List PrimarySample :=
  if l.length < n then l ++ List.replicate (n - l.length) freshPrimarySample
  else l

/-- Read coordinate `i` (out-of-range reads return the zero-initialized
sample; the embedding always pads before writing). -/
def getPS (l : List PrimarySample) (i : ℕ) : PrimarySample :=
  l.getD i freshPrimarySample

/-- Embedding of `MLTSampler::StartIteration`: advance the iteration counter
and coin-flip large step versus small step. -/
def StartIteration (O : MLTOracle) (st : MLTSampler) : MLTSampler :=
  let p := drawU O st
  { p.2 with
    currentIteration := st.currentIteration + 1
    largeStep := decide (p.1 < st.largeStepProbability) }

/-- The toroidal wrap `Xi.value -= std::floor(Xi.value)`. -/
def wrapQ (v : ℚ) : ℚ := v - (⌊v⌋ : ℚ)

/-- The new content of coordinate `index` computed by `EnsureReady`: reset to
a fresh uniform if forgotten, back up, then mutate (fresh uniform on a large
step, wrapped scaled-normal perturbation on a small step) and stamp with the
current iteration. -/
def ensureEntry (O : MLTOracle) (st0 : MLTSampler) (index : ℕ) : PrimarySample :=
  let Xi0 := getPS (padTo st0.X (index + 1)) index
  let needReset := Xi0.lastModificationIteration < st0.lastLargeStepIteration
  let Xi1 := if needReset then
      { Xi0 with
        value := O.uniform st0.seed st0.rngCounter
        lastModificationIteration := st0.lastLargeStepIteration }
    else Xi0
  let ctr1 := if needReset then st0.rngCounter + 1 else st0.rngCounter
  let Xi2 := Xi1.Backup
  let u := O.uniform st0.seed ctr1
  let Xi3 := if st0.largeStep then { Xi2 with value := u }
    else
      let nSmall := st0.currentIteration - Xi2.lastModificationIteration
      let effSigma := st0.sigma * O.sqrtOf nSmall
      { Xi2 with value := wrapQ (Xi2.value + O.normalOf u * effSigma) }
  { Xi3 with lastModificationIteration := st0.currentIteration }

/-- Embedding of `MLTSampler::EnsureReady(index)`: enlarge `X` if necessary,
rewrite coordinate `index` to `ensureEntry`, and consume the generator draws
in program order — a reset draw when the coordinate was forgotten, then
exactly one draw for the mutation. -/
def EnsureReady (O : MLTOracle) (st0 : MLTSampler) (index : ℕ) : MLTSampler :=
  let needReset := (getPS (padTo st0.X (index + 1)) index).lastModificationIteration <
    st0.lastLargeStepIteration
  { st0 with
    X := (padTo st0.X (index + 1)).set index (ensureEntry O st0 index)
    rngCounter := (if needReset then st0.rngCounter + 1 else st0.rngCounter) + 1 }

/-- Embedding of `MLTSampler::GetNextIndex`.  Modelled from the spec (the
method lives in `mlt.h`): the coordinate sequence is partitioned into
`streamCount` interleaved streams, so the next index of the active stream is
`streamIndex + streamCount * sampleIndex`, advancing the per-stream cursor. -/
def GetNextIndex (st : MLTSampler) : ℕ × MLTSampler :=
  (st.streamIndex + st.streamCount * st.sampleIndex,
    { st with sampleIndex := st.sampleIndex + 1 })

/-- Embedding of `MLTSampler::Get1D`: fetch the next coordinate of the active
stream, lazily mutating it to the current iteration. -/
def Get1D (O : MLTOracle) (st : MLTSampler) : ℚ × MLTSampler :=
  let p := GetNextIndex st
  let st2 := EnsureReady O p.2 p.1
  ((getPS st2.X p.1).value, st2)

/-- Embedding of `MLTSampler::Get2D`: two consecutive `Get1D` calls. -/
def Get2D (O : MLTOracle) (st : MLTSampler) : Point2f × MLTSampler :=
  let p := Get1D O st
  let q := Get1D O p.2
  (⟨p.1, q.1⟩, q.2)

/-- Embedding of `MLTSampler::Accept`: a large step becomes the new reference
iteration for lazy coordinate forgetting. -/
def Accept (st : MLTSampler) : MLTSampler :=
  if st.largeStep then { st with lastLargeStepIteration := st.currentIteration }
  else st

/-- Embedding of `MLTSampler::Reject`: restore every coordinate touched this
iteration to its backup and roll the iteration counter back by one. -/
def Reject (st : MLTSampler) : MLTSampler :=
  { st with
    X := st.X.map (fun Xi =>
      if Xi.lastModificationIteration = st.currentIteration then Xi.Restore
      else Xi)
    currentIteration := st.currentIteration - 1 }

/-- Embedding of `MLTSampler::StartStream`: select a stream and reset the
per-stream cursor (the coordinate values are untouched). -/
def StartStream (st : MLTSampler) (index : ℕ) : MLTSampler :=
  { st with streamIndex := index, sampleIndex := 0 }

theorem padTo_length (l : List PrimarySample) (n : ℕ) :
    n ≤ (padTo l n).length := by
  unfold padTo
  split
  · simp only [List.length_append, List.length_replicate]
    omega
  · omega

/-- The toroidal wrap always lands in the half-open unit interval. -/
theorem wrapQ_mem (v : ℚ) : 0 ≤ wrapQ v ∧ wrapQ v < 1 := by
  unfold wrapQ
  rw [Int.self_sub_floor]
  exact ⟨Int.fract_nonneg v, Int.fract_lt_one v⟩

/-- Claim C6: for every oracle (hence every perturbation magnitude and every
sigma), a small-step mutation in `EnsureReady` — adding the scaled normal
variate and then wrapping by subtracting the floor — always leaves the
touched coordinate with a value in `[0, 1)`. -/
theorem ensureReady_smallStep_in_unit (O : MLTOracle) (st : MLTSampler)
    (i : ℕ) (h : st.largeStep = false) :
    0 ≤ (getPS (EnsureReady O st i).X i).value ∧
      (getPS (EnsureReady O st i).X i).value < 1 := by
  have hlen : i < (padTo st.X (i + 1)).length :=
    Nat.lt_of_lt_of_le (Nat.lt_succ_self i) (padTo_length st.X (i + 1))
  simp only [EnsureReady, ensureEntry, h, Bool.false_eq_true, if_false, getPS]
  rw [getD_set_eq _ _ _ _ hlen]
  exact wrapQ_mem _

/-- Witness for claim C6 on a concrete small-step state. -/
theorem ensureReady_smallStep_in_unit_witness :
    (mkMLTSampler 0 1 0 3).largeStep = false ∧
    (0 ≤ (getPS (EnsureReady trivMLTOracle (mkMLTSampler 0 1 0 3) 0).X 0).value ∧
      (getPS (EnsureReady trivMLTOracle (mkMLTSampler 0 1 0 3) 0).X 0).value < 1) :=
  ⟨rfl, ensureReady_smallStep_in_unit trivMLTOracle (mkMLTSampler 0 1 0 3) 0 rfl⟩

/-- Sampler operations appearing in a call sequence. -/
inductive MLTOp where
  | startIter
  | get1
  | get2
  | accept
  | reject
  | startStream (index : ℕ)
  deriving DecidableEq, Repr

/-- Execute one sampler operation, returning the next state and the values
the operation produced. -/
def runOp (O : MLTOracle) (st : MLTSampler) : MLTOp → MLTSampler × List ℚ
  | MLTOp.startIter => (StartIteration O st, [])
  | MLTOp.get1 =>
    let p := Get1D O st
    (p.2, [p.1])
  | MLTOp.get2 =>
    let p := Get2D O st
    (p.2, [p.1.x, p.1.y])
  | MLTOp.accept => (Accept st, [])
  | MLTOp.reject => (Reject st, [])
  | MLTOp.startStream i => (StartStream st i, [])

/-- Run a call sequence from a state, collecting the produced value stream. -/
def replay (O : MLTOracle) : MLTSampler → List MLTOp → MLTSampler × List ℚ
  | st, [] => (st, [])
  | st, op :: ops =>
    let p := runOp O st op
    let q := replay O p.1 ops
    (q.1, p.2 ++ q.2)

/-- Claim C7: two independently constructed `MLTSampler` instances given the
same seed (and construction parameters) produce identical value streams and
end in identical states under identical call sequences — the sampler state is
a pure function of the seed and the operations run. -/
theorem mltSampler_two_run_determinism (O : MLTOracle) (seed : ℕ)
    (sigma largeStepProbability : ℚ) (streamCount : ℕ) (s1 s2 : MLTSampler)
    (ops1 ops2 : List MLTOp)
    (h1 : s1 = mkMLTSampler seed sigma largeStepProbability streamCount)
    (h2 : s2 = mkMLTSampler seed sigma largeStepProbability streamCount)
    (hops : ops1 = ops2) :
    (replay O s1 ops1).2 = (replay O s2 ops2).2 ∧
      (replay O s1 ops1).1 = (replay O s2 ops2).1 := by
  subst h1
  subst h2
  subst hops
  exact ⟨rfl, rfl⟩

/-- Witness for claim C7 on a concrete seed and call sequence. -/
theorem mltSampler_two_run_determinism_witness :
    (replay trivMLTOracle (mkMLTSampler 7 1 0 3)
        [MLTOp.startIter, MLTOp.get1, MLTOp.get2, MLTOp.reject]).2 =
      (replay trivMLTOracle (mkMLTSampler 7 1 0 3)
        [MLTOp.startIter, MLTOp.get1, MLTOp.get2, MLTOp.reject]).2 ∧
    (replay trivMLTOracle (mkMLTSampler 7 1 0 3)
        [MLTOp.startIter, MLTOp.get1, MLTOp.get2, MLTOp.reject]).1 =
      (replay trivMLTOracle (mkMLTSampler 7 1 0 3)
        [MLTOp.startIter, MLTOp.get1, MLTOp.get2, MLTOp.reject]).1 :=
  mltSampler_two_run_determinism trivMLTOracle 7 1 0 3
    (mkMLTSampler 7 1 0 3) (mkMLTSampler 7 1 0 3)
    [MLTOp.startIter, MLTOp.get1, MLTOp.get2, MLTOp.reject]
    [MLTOp.startIter, MLTOp.get1, MLTOp.get2, MLTOp.reject] rfl rfl rfl

theorem getD_append_left {α : Type} (d : α) (l l2 : List α) (i : ℕ)
    (h : i < l.length) : (l ++ l2).getD i d = l.getD i d := by
  induction l generalizing i with
  | nil => simp at h
  | cons x l ih =>
    cases i with
    | zero => rfl
    | succ j =>
      simp only [List.length_cons, Nat.succ_lt_succ_iff] at h
      simpa [List.getD] using ih j h

theorem getPS_padTo (l : List PrimarySample) (n i : ℕ) :
    getPS (padTo l n) i = getPS l i := by
  unfold padTo getPS
  split
  · by_cases h : i < l.length
    · exact getD_append_left _ _ _ _ h
    · push_neg at h
      rw [getD_of_length_le _ l i h, List.getD_eq_getElem?_getD,
        List.getElem?_append_right h, List.getElem?_replicate]
      split <;> rfl
  · rfl

theorem getPS_set_ne (l : List PrimarySample) (i j : ℕ) (a : PrimarySample)
    (h : i ≠ j) : getPS (l.set j a) i = getPS l i := by
  unfold getPS
  induction l generalizing i j with
  | nil => rfl
  | cons x l ih =>
    cases j with
    | zero =>
      cases i with
      | zero => exact absurd rfl h
      | succ k => rfl
    | succ j' =>
      cases i with
      | zero => rfl
      | succ k =>
        simpa [List.set, List.getD] using ih k j' (by omega)

theorem getPS_map (f : PrimarySample → PrimarySample) (l : List PrimarySample)
    (i : ℕ) (h : i < l.length) : getPS (l.map f) i = f (getPS l i) := by
  unfold getPS
  induction l generalizing i with
  | nil => simp at h
  | cons x l ih =>
    cases i with
    | zero => rfl
    | succ j =>
      simp only [List.length_cons, Nat.succ_lt_succ_iff] at h
      simpa [List.getD] using ih j h

theorem getPS_mem (l : List PrimarySample) (i : ℕ) (h : i < l.length) :
    getPS l i ∈ l := by
  unfold getPS
  induction l generalizing i with
  | nil => simp at h
  | cons x l ih =>
    cases i with
    | zero => exact List.mem_cons_self x l
    | succ j =>
      simp only [List.length_cons, Nat.succ_lt_succ_iff] at h
      exact List.mem_cons_of_mem x (ih j h)

theorem getPS_of_length_le (l : List PrimarySample) (i : ℕ)
    (h : l.length ≤ i) : getPS l i = freshPrimarySample :=
  getD_of_length_le _ _ _ h

theorem ensureEntry_fields (O : MLTOracle) (st : MLTSampler) (i : ℕ) :
    (ensureEntry O st i).lastModificationIteration = st.currentIteration ∧
    ((getPS st.X i).lastModificationIteration < st.lastLargeStepIteration →
      (ensureEntry O st i).modifyBackup = st.lastLargeStepIteration) ∧
    (¬((getPS st.X i).lastModificationIteration < st.lastLargeStepIteration) →
      (ensureEntry O st i).modifyBackup =
        (getPS st.X i).lastModificationIteration ∧
      (ensureEntry O st i).valueBackup = (getPS st.X i).value) := by
  by_cases hr : (getPS st.X i).lastModificationIteration <
      st.lastLargeStepIteration <;>
    by_cases hl : st.largeStep = true <;>
      simp [ensureEntry, getPS_padTo, hr, hl, PrimarySample.Backup]

/-- Invariant relating the sampler state in the middle of a proposal
iteration to the state `st0` it had before `StartIteration`: the iteration
counter is one ahead, the stream bookkeeping is unchanged, and every
coordinate is either untouched (identical to its `st0` content, with a stale
modification stamp) or was touched by exactly one `EnsureReady` call of this
iteration, which stamped it with the new iteration and backed up its
pre-mutation content. -/
def RejectInv (st0 st : MLTSampler) : Prop :=
  st.currentIteration = st0.currentIteration + 1 ∧
  st.lastLargeStepIteration = st0.lastLargeStepIteration ∧
  st.streamIndex = st0.streamIndex ∧
  st.streamCount = st0.streamCount ∧
  ∀ i : ℕ,
    (getPS st.X i = getPS st0.X i ∧
      (getPS st.X i).lastModificationIteration ≤ st0.currentIteration) ∨
    ((getPS st.X i).lastModificationIteration = st0.currentIteration + 1 ∧
      i < st.streamIndex + st.streamCount * st.sampleIndex ∧
      (getPS st.X i).modifyBackup ≤ st0.currentIteration ∧
      (¬((getPS st0.X i).lastModificationIteration <
          st0.lastLargeStepIteration) →
        (getPS st.X i).valueBackup = (getPS st0.X i).value ∧
        (getPS st.X i).modifyBackup =
          (getPS st0.X i).lastModificationIteration))

theorem rejectInv_get1 (O : MLTOracle) (st0 st : MLTSampler)
    (hll : st0.lastLargeStepIteration ≤ st0.currentIteration)
    (hsc : 1 ≤ st0.streamCount)
    (hInv : RejectInv st0 st) : RejectInv st0 (Get1D O st).2 := by
  obtain ⟨hcur, hlls, hsi, hscnt, hX⟩ := hInv
  have hEf := ensureEntry_fields O { st with sampleIndex := st.sampleIndex + 1 }
    (st.streamIndex + st.streamCount * st.sampleIndex)
  have hclm : (ensureEntry O { st with sampleIndex := st.sampleIndex + 1 }
      (st.streamIndex + st.streamCount * st.sampleIndex)).lastModificationIteration
      = st.currentIteration := hEf.1
  have hmbR : (getPS st.X (st.streamIndex + st.streamCount *
        st.sampleIndex)).lastModificationIteration < st.lastLargeStepIteration →
      (ensureEntry O { st with sampleIndex := st.sampleIndex + 1 }
        (st.streamIndex + st.streamCount * st.sampleIndex)).modifyBackup
        = st.lastLargeStepIteration := hEf.2.1
  have hmbN : ¬((getPS st.X (st.streamIndex + st.streamCount *
        st.sampleIndex)).lastModificationIteration <
        st.lastLargeStepIteration) →
      (ensureEntry O { st with sampleIndex := st.sampleIndex + 1 }
          (st.streamIndex + st.streamCount * st.sampleIndex)).modifyBackup
        = (getPS st.X (st.streamIndex + st.streamCount *
            st.sampleIndex)).lastModificationIteration ∧
      (ensureEntry O { st with sampleIndex := st.sampleIndex + 1 }
          (st.streamIndex + st.streamCount * st.sampleIndex)).valueBackup
        = (getPS st.X (st.streamIndex + st.streamCount * st.sampleIndex)).value :=
    hEf.2.2
  have hXnew : (Get1D O st).2.X =
      (padTo st.X (st.streamIndex + st.streamCount * st.sampleIndex + 1)).set
        (st.streamIndex + st.streamCount * st.sampleIndex)
        (ensureEntry O { st with sampleIndex := st.sampleIndex + 1 }
          (st.streamIndex + st.streamCount * st.sampleIndex)) := rfl
  refine ⟨hcur, hlls, hsi, hscnt, ?_⟩
  intro i
  by_cases hi : i = st.streamIndex + st.streamCount * st.sampleIndex
  · subst hi
    have hOld : getPS st.X (st.streamIndex + st.streamCount * st.sampleIndex) =
        getPS st0.X (st.streamIndex + st.streamCount * st.sampleIndex) ∧
        (getPS st.X (st.streamIndex + st.streamCount *
          st.sampleIndex)).lastModificationIteration ≤ st0.currentIteration := by
      rcases hX (st.streamIndex + st.streamCount * st.sampleIndex) with h | h
      · exact h
      · exact absurd h.2.1 (lt_irrefl _)
    have hlenPad : st.streamIndex + st.streamCount * st.sampleIndex <
        (padTo st.X (st.streamIndex + st.streamCount * st.sampleIndex + 1)).length :=
      Nat.lt_of_lt_of_le (Nat.lt_succ_self _) (padTo_length _ _)
    have hEntry : getPS (Get1D O st).2.X
        (st.streamIndex + st.streamCount * st.sampleIndex)
        = ensureEntry O { st with sampleIndex := st.sampleIndex + 1 }
            (st.streamIndex + st.streamCount * st.sampleIndex) := by
      rw [hXnew]
      exact getD_set_eq _ _ _ _ hlenPad
    right
    rw [hEntry]
    refine ⟨?_, ?_, ?_, ?_⟩
    · rw [hclm]
      exact hcur
    · show st.streamIndex + st.streamCount * st.sampleIndex <
        st.streamIndex + st.streamCount * (st.sampleIndex + 1)
      have hscnt' : 1 ≤ st.streamCount := by omega
      have hmul : st.streamCount * (st.sampleIndex + 1) =
          st.streamCount * st.sampleIndex + st.streamCount := by ring
      omega
    · by_cases hr : (getPS st.X (st.streamIndex + st.streamCount *
          st.sampleIndex)).lastModificationIteration < st.lastLargeStepIteration
      · rw [hmbR hr]
        omega
      · rw [(hmbN hr).1]
        exact hOld.2
    · intro hnr
      have hnr' : ¬((getPS st.X (st.streamIndex + st.streamCount *
          st.sampleIndex)).lastModificationIteration <
          st.lastLargeStepIteration) := by
        rw [hOld.1, hlls]
        exact hnr
      constructor
      · rw [(hmbN hnr').2, hOld.1]
      · rw [(hmbN hnr').1, hOld.1]
  · have hkeep : getPS (Get1D O st).2.X i = getPS st.X i := by
      rw [hXnew, getPS_set_ne _ _ _ _ hi, getPS_padTo]
    rcases hX i with h | h
    · left
      rw [hkeep]
      exact h
    · right
      refine ⟨by rw [hkeep]; exact h.1, ?_, by rw [hkeep]; exact h.2.2.1, ?_⟩
      · show i < st.streamIndex + st.streamCount * (st.sampleIndex + 1)
        have hb := h.2.1
        have hmul : st.streamCount * (st.sampleIndex + 1) =
            st.streamCount * st.sampleIndex + st.streamCount := by ring
        omega
      · intro hnr
        rw [hkeep]
        exact h.2.2.2 hnr

theorem rejectInv_replay (O : MLTOracle) (st0 : MLTSampler)
    (hll : st0.lastLargeStepIteration ≤ st0.currentIteration)
    (hsc : 1 ≤ st0.streamCount) :
    ∀ (ops : List MLTOp) (st : MLTSampler),
      (∀ op ∈ ops, op = MLTOp.get1 ∨ op = MLTOp.get2) →
      RejectInv st0 st → RejectInv st0 (replay O st ops).1 := by
  intro ops
  induction ops with
  | nil =>
    intro st _ h
    exact h
  | cons op ops ih =>
    intro st hops hInv
    have hmem : op = MLTOp.get1 ∨ op = MLTOp.get2 :=
      hops op (List.mem_cons_self op ops)
    have htail : ∀ o ∈ ops, o = MLTOp.get1 ∨ o = MLTOp.get2 :=
      fun o ho => hops o (List.mem_cons_of_mem op ho)
    rcases hmem with rfl | rfl
    · exact ih (Get1D O st).2 htail (rejectInv_get1 O st0 st hll hsc hInv)
    · exact ih (Get2D O st).2 htail
        (rejectInv_get1 O st0 (Get1D O st).2 hll hsc
          (rejectInv_get1 O st0 st hll hsc hInv))

theorem getPS_reject (st : MLTSampler) (i : ℕ) (h : i < st.X.length) :
    getPS (Reject st).X i =
      (if (getPS st.X i).lastModificationIteration = st.currentIteration
        then (getPS st.X i).Restore else getPS st.X i) := by
  show getPS (st.X.map _) i = _
  rw [getPS_map _ _ _ h]

/-- Claim C4: from any well-formed sampler state, performing
`StartIteration`, then any sequence of `Get1D`/`Get2D` calls, then `Reject`
(1) rolls the iteration counter back to its pre-`StartIteration` value,
(2) leaves every coordinate not touched during the iteration unchanged,
(3) restores every touched coordinate's value and modification stamp to its
backup, and (4) for a touched coordinate that was not lazily forgotten
(its last write does not predate the last accepted large step), that backup
is exactly the pre-proposal value, so the coordinate is restored exactly. -/
theorem reject_restores (O : MLTOracle) (st0 : MLTSampler) (ops : List MLTOp)
    (hops : ∀ op ∈ ops, op = MLTOp.get1 ∨ op = MLTOp.get2)
    (hcur : 0 ≤ st0.currentIteration)
    (hll : st0.lastLargeStepIteration ≤ st0.currentIteration)
    (hsc : 1 ≤ st0.streamCount)
    (hX : ∀ ps ∈ st0.X, ps.lastModificationIteration ≤ st0.currentIteration) :
    (Reject (replay O (StartIteration O st0) ops).1).currentIteration
        = st0.currentIteration ∧
    (∀ i : ℕ,
      (getPS (replay O (StartIteration O st0) ops).1.X
            i).lastModificationIteration
          ≠ (replay O (StartIteration O st0) ops).1.currentIteration →
        getPS (Reject (replay O (StartIteration O st0) ops).1).X i
          = getPS st0.X i) ∧
    (∀ i : ℕ,
      (getPS (replay O (StartIteration O st0) ops).1.X
            i).lastModificationIteration
          = (replay O (StartIteration O st0) ops).1.currentIteration →
        (getPS (Reject (replay O (StartIteration O st0) ops).1).X i).value
            = (getPS (replay O (StartIteration O st0) ops).1.X i).valueBackup ∧
          (getPS (Reject (replay O (StartIteration O st0) ops).1).X
              i).lastModificationIteration
            = (getPS (replay O (StartIteration O st0) ops).1.X i).modifyBackup) ∧
    (∀ i : ℕ,
      (getPS (replay O (StartIteration O st0) ops).1.X
            i).lastModificationIteration
          = (replay O (StartIteration O st0) ops).1.currentIteration →
        ¬((getPS st0.X i).lastModificationIteration <
            st0.lastLargeStepIteration) →
        (getPS (Reject (replay O (StartIteration O st0) ops).1).X i).value
          = (getPS st0.X i).value) := by
  have hBase : RejectInv st0 (StartIteration O st0) := by
    refine ⟨rfl, rfl, rfl, rfl, ?_⟩
    intro i
    left
    have hXeq : (StartIteration O st0).X = st0.X := rfl
    rw [hXeq]
    refine ⟨rfl, ?_⟩
    by_cases hlen : i < st0.X.length
    · exact hX _ (getPS_mem st0.X i hlen)
    · push_neg at hlen
      rw [getPS_of_length_le st0.X i hlen]
      exact hcur
  have hInv : RejectInv st0 ((replay O (StartIteration O st0) ops).1) :=
    rejectInv_replay O st0 hll hsc ops (StartIteration O st0) hops hBase
  generalize hg : (replay O (StartIteration O st0) ops).1 = st2 at hInv ⊢
  obtain ⟨hcur2, hlls2, hsi2, hscnt2, hXinv⟩ := hInv
  have hRejCur : (Reject st2).currentIteration = st2.currentIteration - 1 := rfl
  refine ⟨?_, ?_, ?_, ?_⟩
  · rw [hRejCur]
    omega
  · intro i hne
    by_cases hlen : i < st2.X.length
    · rw [getPS_reject st2 i hlen, if_neg hne]
      rcases hXinv i with h | h
      · exact h.1
      · exact absurd (by omega) hne
    · push_neg at hlen
      have h2 : getPS st2.X i = freshPrimarySample := getPS_of_length_le _ _ hlen
      have h3 : getPS (Reject st2).X i = freshPrimarySample := by
        apply getPS_of_length_le
        show (st2.X.map _).length ≤ i
        rw [List.length_map]
        exact hlen
      rcases hXinv i with h | h
      · rw [h3, ← h.1, h2]
      · exfalso
        have h4 : (0 : ℤ) = st0.currentIteration + 1 := by
          rw [h2] at h
          exact h.1
        omega
  · intro i heq
    by_cases hlen : i < st2.X.length
    · rw [getPS_reject st2 i hlen, if_pos heq]
      exact ⟨rfl, rfl⟩
    · push_neg at hlen
      exfalso
      rw [getPS_of_length_le _ _ hlen] at heq
      have h4 : (0 : ℤ) = st2.currentIteration := heq
      omega
  · intro i heq hnr
    rcases hXinv i with h | h
    · exfalso
      have := h.2
      omega
    · have hvb := (h.2.2.2 hnr).1
      by_cases hlen : i < st2.X.length
      · rw [getPS_reject st2 i hlen, if_pos heq]
        exact hvb
      · push_neg at hlen
        exfalso
        rw [getPS_of_length_le _ _ hlen] at heq
        have h4 : (0 : ℤ) = st2.currentIteration := heq
        omega

/-- Witness for claim C4 on a concrete seed, state and call sequence. -/
theorem reject_restores_witness :
    ((0 : ℤ) ≤ (mkMLTSampler 3 1 0 3).currentIteration) ∧
    (Reject (replay trivMLTOracle
        (StartIteration trivMLTOracle (mkMLTSampler 3 1 0 3))
        [MLTOp.get1]).1).currentIteration
      = (mkMLTSampler 3 1 0 3).currentIteration :=
  ⟨by decide,
    (reject_restores trivMLTOracle (mkMLTSampler 3 1 0 3) [MLTOp.get1]
      (by decide) (by decide) (by decide) (by decide) (by decide)).1⟩

end PbrtBdpt
